import Mathlib

/-!
Verification of the DLSite-Collection-Helper record store and filename parser.

The development shallowly embeds the Python sources:
  * `src/file_utils.py`  — `extract_id_and_version` (regex-based filename parser),
  * `src/database.py`    — `add_or_update_id`, `update_marked_status`,
                           `reset_all_marked_status`,
  * `src/gui.py`         — `save_id`, `save_changes`, `check_folder_for_ids`.

Strings are modelled as Lean `String` (a packed `List Char`, matching Python's
sequence-of-code-points view for the ASCII data handled here).  The SQLite table
`dlsite_ids` is modelled as a `List Rec` in rowid order; a nullable TEXT column
becomes `Option String`, and SQL `=` on a NULL value never matches, exactly as
in the embedded queries.
-/

namespace DLHelper

/-! ## Python string helpers -/

/-- Python `str.strip()` on the character list: drop leading and trailing
whitespace (ASCII whitespace model, as in `Char.isWhitespace`). -/
def pyStripData (l : List Char) : List Char :=
  ((l.dropWhile Char.isWhitespace).reverse.dropWhile Char.isWhitespace).reverse

/-- Python `str.strip()`. -/
def pyStrip (s : String) : String :=
  String.mk (pyStripData s.data)

/-- Python `str.upper()` restricted to the ASCII letters that occur in the
application's data (`Char.toUpper` is the basic-latin case map). -/
def pyUpper (s : String) : String :=
  String.mk (s.data.map Char.toUpper)

/-! ## `os.path.splitext` (posixpath semantics)

`splitext(p)` splits off the extension at the last `'.'` of the final path
component, unless every character of that component before the dot is itself a
dot (leading dots do not start an extension).  The parser only ever uses the
root part `p[:dotIndex]`. -/

/-- Index of the last occurrence of `c` in `l`, if any. -/
def lastIdx (c : Char) : List Char → Option Nat
  | [] => none
  | a :: as =>
    match lastIdx c as with
    | some j => some (j + 1)
    | none => if a = c then some 0 else none

/-- The root part of `os.path.splitext`: everything before the extension dot,
or the whole name when there is no extension. -/
def splitextRoot (l : List Char) : List Char :=
  match lastIdx '.' l with
  | none => l
  | some d =>
    let s : Nat := match lastIdx '/' l with
      | none => 0
      | some k => k + 1
    if s ≤ d ∧ ((l.drop s).take (d - s)).any (fun c => c ≠ '.') then
      l.take d
    else
      l

/-! ## The filename parser (`extract_id_and_version`)

`re.search(r'(RJ\d+)', name)` finds the leftmost occurrence of `RJ` followed
by at least one digit; the greedy `\d+` captures the maximal digit run. -/

/-- Leftmost match of the regex `RJ\d+` (returns the captured group, whose
greedy `\d+` takes the maximal digit run). -/
def rjSearch : List Char → Option (List Char)
  | [] => none
  | c :: cs =>
    match cs with
    | d1 :: d :: ds =>
      if c = 'R' ∧ d1 = 'J' ∧ d.isDigit then
        some ('R' :: 'J' :: d :: ds.takeWhile Char.isDigit)
      else rjSearch cs
    | _ => rjSearch cs

/-- `numTokAux l seen` decides whether `l` completes a match of `\d+(\.\d+)*`,
where `seen` records that at least one digit of the current group was read. -/
def numTokAux : List Char → Bool → Bool
  | [], seen => seen
  | c :: cs, seen =>
    if c.isDigit then numTokAux cs true
    else if c = '.' then seen && numTokAux cs false
    else false

/-- Does `l` match the regex `\d+(\.\d+)*` exactly? -/
def isNumTok (l : List Char) : Bool :=
  numTokAux l false

/-- Does `l` match the regex `v?\d+(\.\d+)*` exactly (the parenthesised group
of the first version regex; the `v` is a case-sensitive literal)? -/
def isVerTok : List Char → Bool
  | [] => false
  | c :: cs => if c = 'v' then isNumTok cs else isNumTok (c :: cs)

/-- Leftmost match of `\((tok)\)` for a token class `ok`: `re.search` tries
every position; at a `'('` the group runs to the next `')'` (the token classes
contain no `')'`), and the match succeeds iff that group satisfies `ok`. -/
def parenScan (ok : List Char → Bool) : List Char → Option (List Char)
  | [] => none
  | c :: rest =>
    if c = '(' ∧ (rest.dropWhile (fun a => a ≠ ')')) ≠ [] ∧
        ok (rest.takeWhile (fun a => a ≠ ')')) then
      some (rest.takeWhile (fun a => a ≠ ')'))
    else parenScan ok rest

/-- The code's version standardisation: `raw.lower().startswith('v')` strips
the first character, and `'v'` is prepended. -/
def codeNormTok (t : List Char) : List Char :=
  match t with
  | c :: cs => if c = 'v' ∨ c = 'V' then 'v' :: cs else 'v' :: c :: cs
  | [] => ['v']

/-- `extract_id_and_version` on the character list of the filename. -/
def extractData (filename : List Char) : Option (List Char) × Option (List Char) :=
  let name := splitextRoot filename
  match rjSearch name with
  | none => (none, none)
  | some dlsiteId =>
    let vm : Option (List Char) :=
      match parenScan isVerTok name with
      | some t => some t
      | none => parenScan isNumTok name
    (some dlsiteId, vm.map codeNormTok)

/-- `extract_id_and_version` at `String` level. -/
def extractS (filename : String) : Option String × Option String :=
  ((extractData filename.data).1.map String.mk,
   (extractData filename.data).2.map String.mk)

/-! ## The record store

One row of the SQLite table `dlsite_ids`, in rowid order inside a `List Rec`.
`version` is a nullable TEXT column (`none` = SQL NULL); `marked` holds the
INTEGER 0/1 presence flag (`DEFAULT 0` on insert). -/

structure Rec where
  dlsite_id : String
  tested : String
  version : Option String
  marked : Bool
  deriving DecidableEq, Repr

/-- The (identifier, version) pair of a row, as raw column values. -/
def pairKey (r : Rec) : String × Option String :=
  (r.dlsite_id, r.version)

/-- No two rows share the same raw (identifier, version) pair. -/
def pairUniqueB : List Rec → Bool
  | [] => true
  | r :: rs => rs.all (fun x => pairKey x ≠ pairKey r) && pairUniqueB rs

/-- The version standardisation shared by `save_id` and `save_changes`:
a non-empty version loses a leading `v`/`V` (`version.lower().startswith('v')`
followed by `version[1:]`) and gains the literal prefix `'v'`; an empty
version stays empty. -/
def normVer (v : String) : String :=
  if v = "" then ""
  else
    String.mk ('v' ::
      (match v.data with
       | c :: cs => if c = 'v' ∨ c = 'V' then cs else c :: cs
       | [] => []))

/-- `gui.save_id`: reject an empty identifier, standardise the version, reject
a duplicate `(dlsite_id, version)` pair (SQL `version = ?` never matches NULL),
otherwise INSERT with `marked` defaulting to 0.  The result pairs the new
table contents with the user-facing error, if any. -/
def save_id (dlsiteId version tested : String) (db : List Rec) :
    List Rec × Option String :=
  if dlsiteId = "" then (db, some "ID cannot be empty.")
  else
    let v := normVer version
    if db.any (fun r => r.dlsite_id = dlsiteId ∧ r.version = some v) then
      (db, some "An entry with this ID and version already exists.")
    else
      (db ++ [⟨dlsiteId, tested, some v, false⟩], none)

/-- The duplicate check of `gui.save_changes`:
`SELECT rowid FROM dlsite_ids WHERE dlsite_id = ? AND version = ? AND rowid != ?`,
with the excluded rowid given as a position in the list. -/
def hasDupExcept : List Rec → Nat → String → Option String → Bool
  | [], _, _, _ => false
  | _ :: rs, 0, nid, nv => rs.any (fun r => r.dlsite_id = nid ∧ r.version = nv)
  | r :: rs, e + 1, nid, nv =>
    (r.dlsite_id = nid ∧ r.version = nv : Bool) || hasDupExcept rs e nid nv

/-- `UPDATE dlsite_ids SET dlsite_id = ?, tested = ?, version = ? WHERE rowid = ?`:
replace those three columns of the row at the given position (`marked` is
kept); an absent rowid updates nothing. -/
def updateRow : List Rec → Nat → String → String → Option String → List Rec
  | [], _, _, _, _ => []
  | r :: rs, 0, nid, t, nv => { r with dlsite_id := nid, tested := t, version := nv } :: rs
  | r :: rs, e + 1, nid, t, nv => r :: updateRow rs e nid t nv

/-- `gui.save_changes`: strip the inputs, reject an empty identifier,
standardise the version, reject a duplicate pair on another rowid, otherwise
UPDATE the row in place. -/
def save_changes (entryId : Nat) (dlsiteId version tested : String)
    (db : List Rec) : List Rec × Option String :=
  let nid := pyStrip dlsiteId
  let nver := normVer (pyStrip version)
  if nid = "" then (db, some "ID cannot be empty.")
  else if hasDupExcept db entryId nid (some nver) then
    (db, some "An entry with this ID and version already exists.")
  else
    (updateRow db entryId nid tested (some nver), none)

/-- `database.add_or_update_id`: upper-case and strip the identifier, strip a
truthy version (else use `""`); if any row has this `dlsite_id`, UPDATE the
version and tested columns of every such row, else INSERT a new row. -/
def add_or_update_id (dlsiteId : String) (version : Option String)
    (tested : String) (db : List Rec) : List Rec :=
  let nid := pyUpper (pyStrip dlsiteId)
  let nver : String := match version with
    | some s => if s = "" then "" else pyStrip s
    | none => ""
  if db.any (fun r => r.dlsite_id = nid) then
    db.map (fun r =>
      if r.dlsite_id = nid then { r with version := some nver, tested := tested } else r)
  else
    db ++ [⟨nid, tested, some nver, false⟩]

/-! ## The reconciliation scan (`check_folder_for_ids`)

The scan is a function of the folder state: whether the configured path is set
and exists (`folderOk`), and the result of listing its regular files
(`listing`, `none` when `os.listdir` raises).  The reset of every `marked`
flag is committed before the listing is attempted. -/

/-- The version part of the per-file match query: an extracted truthy version
must match the column exactly (`version = ?`, never matching NULL); an absent
or empty one matches `version IS NULL OR version = ''`. -/
def versionWhere (fileV : Option String) (rowV : Option String) : Bool :=
  match fileV with
  | some v => if v = "" then rowV = none ∨ rowV = some "" else rowV = some v
  | none => rowV = none ∨ rowV = some ""

/-- The full per-file match query `dlsite_id = ? AND <version clause>`. -/
def rowMatches (fileId : String) (fileV : Option String) (r : Rec) : Bool :=
  r.dlsite_id = fileId && versionWhere fileV r.version

/-- Does the scanned file match the row?  (`extract_id_and_version` followed by
the truthiness test `if dlsite_id:` and the match query.) -/
def matchesFile (f : String) (r : Rec) : Bool :=
  match extractS f with
  | (some fid, fv) => fid ≠ "" && rowMatches fid fv r
  | (none, _) => false

/-- Mark the first matching row present (`cursor.fetchone()` returns the
lowest-rowid match, then `update_marked_status` sets `marked = 1` on it). -/
def markFirst (p : Rec → Bool) : List Rec → List Rec
  | [] => []
  | r :: rs => if p r then { r with marked := true } :: rs else r :: markFirst p rs

/-- `reset_all_marked_status`: `UPDATE dlsite_ids SET marked = 0`. -/
def resetRec (r : Rec) : Rec :=
  { r with marked := false }

/-- Processing of one listed file inside the scan loop. -/
def processFile (db : List Rec) (f : String) : List Rec :=
  match extractS f with
  | (some fid, fv) => if fid ≠ "" then markFirst (rowMatches fid fv) db else db
  | (none, _) => db

/-- `check_folder_for_ids`: return immediately when the folder path is unset
or missing; otherwise reset every `marked` flag, and if the listing succeeds
process each listed file in order. -/
def scan (folderOk : Bool) (listing : Option (List String)) (db : List Rec) :
    List Rec :=
  if folderOk then
    match listing with
    | none => db.map resetRec
    | some files => files.foldl processFile (db.map resetRec)
  else db

/-! ## Spec-side definitions

These follow the specification's wording so the code-derived functions can be
compared against them; they are not translations of the source. -/

/-- Following the spec: a parenthesised group "containing digits (optionally
dot-separated, optionally prefixed with `v`)". -/
def specVersionGroupOk (g : List Char) : Bool :=
  isNumTok g || (g.head? = some 'v' && isNumTok g.tail)

/-- Following the spec: normalisation to "digits prefixed with `v`". -/
def specNormTok (g : List Char) : List Char :=
  if g.head? = some 'v' then g else 'v' :: g

/-- Following the spec: the version is taken from the first parenthesised
group containing digits of the extension-stripped name, normalised; absent if
no such group exists. -/
def specVersionOf (s : String) : Option String :=
  (parenScan specVersionGroupOk (splitextRoot s.data)).map
    (fun t => String.mk (specNormTok t))

/-- The canonical-version shape: `'v'` followed by a dot-separated digit
token. -/
def isCanonV (s : String) : Bool :=
  match s.data with
  | c :: cs => c = 'v' && isNumTok cs
  | [] => false

/-- The identifier shape: literal `RJ` followed by at least one digit. -/
def isRJshape (s : String) : Bool :=
  match s.data with
  | c1 :: c2 :: ds => c1 = 'R' && c2 = 'J' && (ds ≠ [] && ds.all Char.isDigit)
  | _ => false

/-- A row's version column is empty (NULL or `""`) or begins with `'v'`. -/
def versionOkB (r : Rec) : Bool :=
  match r.version with
  | none => true
  | some s => s = "" || s.data.head? = some 'v'

/-- The version class used by scan matching: NULL and `""` collapse. -/
def classV : Option String → String
  | none => ""
  | some s => s

/-- The scan-matching key of a row: identifier together with the version
under the absent/empty identification. -/
def keyOf (r : Rec) : String × String :=
  (r.dlsite_id, classV r.version)

/-- No two rows share the same scan-matching key. -/
def keyUniqueB : List Rec → Bool
  | [] => true
  | r :: rs => rs.all (fun x => keyOf x ≠ keyOf r) && keyUniqueB rs

/-- At most one element of the list satisfies `p` (list-structural form). -/
def AtMostOne (p : Rec → Bool) : List Rec → Prop
  | [] => True
  | r :: rs => (p r = true → ∀ x ∈ rs, p x = false) ∧ AtMostOne p rs

/-! ## Lemmas -/

lemma markFirst_map_reset (p : Rec → Bool) (db : List Rec) :
    (markFirst p db).map resetRec = db.map resetRec := by
  induction db with
  | nil => rfl
  | cons r rs ih =>
    by_cases h : p r = true
    · simp [markFirst, h, resetRec]
    · simp [markFirst, h, ih]

lemma processFile_map_reset (db : List Rec) (f : String) :
    (processFile db f).map resetRec = db.map resetRec := by
  rcases hef : extractS f with ⟨fid, fv⟩
  cases fid with
  | none => simp [processFile, hef]
  | some i =>
    by_cases hi : i = ""
    · simp [processFile, hef, hi]
    · simp [processFile, hef, hi, markFirst_map_reset]

lemma foldl_map_reset (files : List String) (db : List Rec) :
    (files.foldl processFile db).map resetRec = db.map resetRec := by
  induction files generalizing db with
  | nil => rfl
  | cons f fs ih => rw [List.foldl_cons, ih, processFile_map_reset]

lemma resetRec_comp : resetRec ∘ resetRec = resetRec :=
  funext fun _ => rfl

end DLHelper

namespace DLHelper

/-- C4: for every folder state and record store, running the reconciliation
scan twice in succession yields the same store (hence the same presence
flags) as running it once. -/
theorem scan_idempotent (folderOk : Bool) (listing : Option (List String))
    (db : List Rec) :
    scan folderOk listing (scan folderOk listing db) = scan folderOk listing db := by
  cases folderOk with
  | false => simp [scan]
  | true =>
    cases listing with
    | none => simp [scan, List.map_map, resetRec_comp]
    | some files =>
      simp only [scan, if_pos]
      rw [foldl_map_reset, List.map_map, resetRec_comp]

/-- C2 (amended): if the configured folder is unset or missing the scan is a
no-op; if the folder exists but its contents cannot be listed, the scan
resets every record's present flag to false and changes nothing else. -/
theorem scan_failure_behavior :
    (∀ (listing : Option (List String)) (db : List Rec), scan false listing db = db) ∧
    (∀ db : List Rec, scan true none db = db.map resetRec) ∧
    (∀ r : Rec, (resetRec r).dlsite_id = r.dlsite_id ∧ (resetRec r).version = r.version ∧
      (resetRec r).tested = r.tested ∧ (resetRec r).marked = false) :=
  ⟨fun _ db => by simp [scan], fun db => by simp [scan],
   fun _ => ⟨rfl, rfl, rfl, rfl⟩⟩

/-- C2 counterexample: with the folder present but unlistable the scan is not
a no-op — a record marked present beforehand loses its flag, because the
reset of all `marked` columns is committed before the listing is attempted. -/
theorem scan_unlistable_not_noop :
    scan true none [⟨"RJ1", "No", some "v1", true⟩] ≠
      [⟨"RJ1", "No", some "v1", true⟩] := by
  decide

/-- C5: a record whose version column is NULL or empty is matched by a
scanned file with no parsed version, is not matched by one whose parsed
version is `"v1"`, and NULL and empty versions are interchangeable for every
possible parsed file version. -/
theorem emptyVersion_matching (r : Rec)
    (h : r.version = none ∨ r.version = some "") :
    rowMatches r.dlsite_id none r = true ∧
    rowMatches r.dlsite_id (some "v1") r = false ∧
    ∀ fv : Option String, versionWhere fv none = versionWhere fv (some "") := by
  refine ⟨?_, ?_, ?_⟩
  · rcases h with h | h <;> simp [rowMatches, versionWhere, h]
  · rcases h with h | h <;> simp [rowMatches, versionWhere, h]
  · intro fv
    cases fv with
    | none => rfl
    | some v =>
      by_cases hv : v = ""
      · simp [versionWhere, hv]
      · simp [versionWhere, hv]
        exact fun he => hv he.symm

/-- Witness for C5 at a concrete record with an empty version. -/
theorem emptyVersion_matching_witness :
    rowMatches "RJ1" none ⟨"RJ1", "No", some "", false⟩ = true ∧
    rowMatches "RJ1" (some "v1") ⟨"RJ1", "No", some "", false⟩ = false :=
  ⟨(emptyVersion_matching ⟨"RJ1", "No", some "", false⟩ (Or.inr rfl)).1,
   (emptyVersion_matching ⟨"RJ1", "No", some "", false⟩ (Or.inr rfl)).2.1⟩

lemma rjSearch_isSome_append (l₁ l₂ : List Char) :
    (rjSearch l₁).isSome → (rjSearch (l₁ ++ l₂)).isSome := by
  induction l₁ with
  | nil => intro h; simp [rjSearch] at h
  | cons c cs ih =>
    cases cs with
    | nil => intro h; simp [rjSearch] at h
    | cons d1 rest =>
      cases rest with
      | nil =>
        intro h; simp [rjSearch] at h
      | cons d ds =>
        intro h
        by_cases hc : c = 'R' ∧ d1 = 'J' ∧ d.isDigit = true
        · simp [rjSearch, hc]
        · rw [show (c :: d1 :: d :: ds) ++ l₂ = c :: d1 :: d :: (ds ++ l₂) by simp]
          rw [rjSearch, if_neg hc] at h ⊢
          exact ih h

lemma splitextRoot_take (l : List Char) :
    ∃ n, splitextRoot l = l.take n := by
  cases hd : lastIdx '.' l with
  | none => exact ⟨l.length, by simp [splitextRoot, hd]⟩
  | some d =>
    simp only [splitextRoot, hd]
    split
    · exact ⟨d, rfl⟩
    · exact ⟨l.length, by simp⟩

lemma splitextRoot_spec (l : List Char) :
    ∃ l₂, l = splitextRoot l ++ l₂ := by
  obtain ⟨n, hn⟩ := splitextRoot_take l
  exact ⟨l.drop n, by rw [hn, List.take_append_drop]⟩

/-- C7: a filename in which no identifier (`RJ` followed by a digit run)
occurs parses to no match at all: both outputs are `none`. -/
theorem extract_no_id (s : String) (h : rjSearch s.data = none) :
    extractS s = (none, none) := by
  obtain ⟨l₂, hl⟩ := splitextRoot_spec s.data
  have hroot : rjSearch (splitextRoot s.data) = none := by
    cases hr : rjSearch (splitextRoot s.data) with
    | none => rfl
    | some t =>
      have hs := rjSearch_isSome_append (splitextRoot s.data) l₂ (by simp [hr])
      rw [← hl] at hs
      simp [h] at hs
  simp [extractS, extractData, hroot]

/-- Witness for C7 at a concrete identifier-free filename. -/
theorem extract_no_id_witness : extractS "hello.zip" = (none, none) :=
  extract_no_id "hello.zip" (by decide)

lemma takeWhile_all_self (p : Char → Bool) (l : List Char) :
    (l.takeWhile p).all p = true := by
  induction l with
  | nil => rfl
  | cons c cs ih =>
    by_cases hc : p c = true
    · simp [List.takeWhile_cons, hc, ih]
    · simp [List.takeWhile_cons, hc]

lemma rjSearch_shape (l t : List Char) (h : rjSearch l = some t) :
    isRJshape (String.mk t) = true := by
  induction l with
  | nil => simp [rjSearch] at h
  | cons c cs ih =>
    cases cs with
    | nil => simp [rjSearch] at h
    | cons d1 rest =>
      cases rest with
      | nil =>
        simp only [rjSearch] at h
        exact ih h
      | cons d ds =>
        by_cases hc : c = 'R' ∧ d1 = 'J' ∧ d.isDigit = true
        · rw [rjSearch, if_pos hc] at h
          obtain ⟨t, rfl⟩ : ∃ u, t = 'R' :: 'J' :: d :: ds.takeWhile Char.isDigit := by
            exact ⟨t, (Option.some.injEq _ _ ▸ h).symm⟩
          simp [isRJshape, hc.2.2, takeWhile_all_self]
        · rw [rjSearch, if_neg hc] at h
          exact ih h

lemma parenScan_ok_of_some (ok : List Char → Bool) (l t : List Char)
    (h : parenScan ok l = some t) : ok t = true := by
  induction l with
  | nil => simp [parenScan] at h
  | cons c rest ih =>
    rw [parenScan] at h
    split at h
    · next hcond =>
      cases h
      exact hcond.2.2
    · exact ih h

lemma isNumTok_head (c : Char) (cs : List Char)
    (h : isNumTok (c :: cs) = true) : c.isDigit = true := by
  by_cases hc : c.isDigit = true
  · exact hc
  · by_cases hd : c = '.'
    · simp [isNumTok, numTokAux, hc, hd] at h
    · simp [isNumTok, numTokAux, hc, hd] at h

lemma isNumTok_isVerTok (t : List Char) (h : isNumTok t = true) :
    isVerTok t = true := by
  cases t with
  | nil => simp [isNumTok, numTokAux] at h
  | cons c cs =>
    have hd := isNumTok_head c cs h
    have hcv : c ≠ 'v' := by
      intro he
      rw [he] at hd
      simp at hd
    rw [isVerTok, if_neg hcv]
    exact h

lemma codeNorm_canon (t : List Char) (h : isVerTok t = true) :
    isCanonV (String.mk (codeNormTok t)) = true := by
  cases t with
  | nil => simp [isVerTok] at h
  | cons c cs =>
    by_cases hc : c = 'v'
    · subst hc
      rw [isVerTok, if_pos rfl] at h
      simp [codeNormTok, isCanonV, h]
    · rw [isVerTok, if_neg hc] at h
      have hd := isNumTok_head c cs h
      have hcV : c ≠ 'V' := by
        intro he
        rw [he] at hd
        simp at hd
      simp only [codeNormTok]
      rw [if_neg (by tauto)]
      simp [isCanonV, h]

/-- C10: the parser's outputs are linked — a version is produced only
together with an identifier, every produced version has the canonical shape
`v` + dot-separated digits, every produced identifier has the shape `RJ` +
digits, and the `v` prefix of a parenthesised version token is recognised
only in lower case (`(V2)` yields no version). -/
theorem parser_output_shapes :
    (∀ (s w : String), (extractS s).2 = some w →
      (extractS s).1.isSome = true ∧ isCanonV w = true) ∧
    (∀ (s t : String), (extractS s).1 = some t → isRJshape t = true) ∧
    extractS "RJ1 (V2).zip" = (some "RJ1", none) := by
  refine ⟨?_, ?_, by decide⟩
  · intro s w h
    rcases hr : rjSearch (splitextRoot s.data) with _ | i
    · simp [extractS, extractData, hr] at h
    · refine ⟨by simp [extractS, extractData, hr], ?_⟩
      rw [extractS] at h
      simp only [extractData, hr] at h
      cases hp : parenScan isVerTok (splitextRoot s.data) with
      | some t =>
        simp only [hp, Option.map_some] at h
        cases h
        exact codeNorm_canon t (parenScan_ok_of_some _ _ _ hp)
      | none =>
        simp only [hp] at h
        cases hp2 : parenScan isNumTok (splitextRoot s.data) with
        | none => simp [hp2] at h
        | some t =>
          simp only [hp2, Option.map_some] at h
          cases h
          exact codeNorm_canon t
            (isNumTok_isVerTok t (parenScan_ok_of_some _ _ _ hp2))
  · intro s t h
    rcases hr : rjSearch (splitextRoot s.data) with _ | i
    · simp [extractS, extractData, hr] at h
    · rw [extractS] at h
      simp only [extractData, hr, Option.map_some] at h
      cases h
      exact rjSearch_shape _ i hr

/-- Witness for C10 at a concrete filename carrying both outputs. -/
theorem parser_output_shapes_witness :
    (extractS "RJ1 (v2).zip").1.isSome = true ∧ isCanonV "v2" = true ∧
      isRJshape "RJ1" = true :=
  ⟨(parser_output_shapes.1 "RJ1 (v2).zip" "v2" (by decide)).1,
   (parser_output_shapes.1 "RJ1 (v2).zip" "v2" (by decide)).2,
   parser_output_shapes.2.1 "RJ1 (v2).zip" "RJ1" (by decide)⟩

lemma parenScan_congr (ok1 ok2 : List Char → Bool)
    (hok : ∀ t, ok1 t = ok2 t) (l : List Char) :
    parenScan ok1 l = parenScan ok2 l := by
  induction l with
  | nil => rfl
  | cons c rest ih =>
    rw [parenScan, parenScan, hok, ih]

lemma specGroupOk_eq_isVerTok (g : List Char) :
    specVersionGroupOk g = isVerTok g := by
  cases g with
  | nil => simp [specVersionGroupOk, isVerTok, isNumTok, numTokAux]
  | cons c cs =>
    by_cases hc : c = 'v'
    · subst hc
      simp [specVersionGroupOk, isVerTok, isNumTok, numTokAux]
    · simp [specVersionGroupOk, isVerTok, hc]

lemma parenScan_subsume (l : List Char)
    (h : parenScan isVerTok l = none) : parenScan isNumTok l = none := by
  induction l with
  | nil => rfl
  | cons c rest ih =>
    rw [parenScan] at h ⊢
    split at h
    · exact absurd h (by simp)
    · next hc1 =>
      split
      · next hc2 =>
        exact absurd ⟨hc2.1, hc2.2.1, isNumTok_isVerTok _ hc2.2.2⟩ hc1
      · exact ih h

lemma codeNorm_eq_specNorm (t : List Char) (h : isVerTok t = true) :
    codeNormTok t = specNormTok t := by
  cases t with
  | nil => simp [isVerTok] at h
  | cons c cs =>
    by_cases hc : c = 'v'
    · subst hc
      simp [codeNormTok, specNormTok]
    · rw [isVerTok, if_neg hc] at h
      have hd := isNumTok_head c cs h
      have hcV : c ≠ 'V' := by
        intro he
        rw [he] at hd
        simp at hd
      rw [codeNormTok, if_neg (by tauto)]
      rw [specNormTok, if_neg (by simp [hc])]

/-- C6 (amended): whenever the parser finds an identifier, its version output
agrees with the specification's description — the first parenthesised digit
group (optionally dot-separated, optionally prefixed with a lower-case `v`)
of the extension-stripped name, normalised to `v`-prefixed digits; in
particular `RJ1 (v1.2).zip` and `RJ1 (1.2).zip` yield the identical canonical
version `v1.2`. -/
theorem version_extraction_spec :
    (∀ s : String, (extractS s).1.isSome = true → (extractS s).2 = specVersionOf s) ∧
    extractS "RJ1 (v1.2).zip" = (some "RJ1", some "v1.2") ∧
    extractS "RJ1 (1.2).zip" = (some "RJ1", some "v1.2") := by
  refine ⟨?_, by decide, by decide⟩
  intro s h
  rcases hr : rjSearch (splitextRoot s.data) with _ | i
  · simp [extractS, extractData, hr] at h
  · rw [extractS, specVersionOf,
      parenScan_congr specVersionGroupOk isVerTok specGroupOk_eq_isVerTok]
    simp only [extractData, hr]
    cases hp : parenScan isVerTok (splitextRoot s.data) with
    | some t =>
      simp [hp, codeNorm_eq_specNorm t (parenScan_ok_of_some _ _ _ hp)]
    | none =>
      simp [hp, parenScan_subsume _ hp]

/-- Witness for C6 at a concrete filename with an identifier. -/
theorem version_extraction_spec_witness :
    (extractS "RJ9 (3).bin").2 = specVersionOf "RJ9 (3).bin" :=
  version_extraction_spec.1 "RJ9 (3).bin" (by decide)

/-- C6 counterexample: the claim quantifies over every filename, but a
filename containing `(v1.2)` need not yield version `v1.2` — with no
identifier the parser returns no version at all, and without an extension
`os.path.splitext` cuts the name at the dot inside `(v1.2)`, destroying the
group. -/
theorem version_extraction_counterexample :
    extractS "(v1.2)" = (none, none) ∧
    extractS "RJ1(v1.2)" = (some "RJ1", none) := by
  decide

lemma toUpper_ofNat_fixed (n : Nat) (h1 : 97 ≤ n) (h2 : n ≤ 122) :
    Char.toUpper (Char.ofNat (n - 32)) = Char.ofNat (n - 32) := by
  interval_cases n <;> decide

lemma toUpper_idem (c : Char) : c.toUpper.toUpper = c.toUpper := by
  by_cases h : c.toNat ≥ 97 ∧ c.toNat ≤ 122
  · have hc : c.toUpper = Char.ofNat (c.toNat - 32) := by
      rw [Char.toUpper]
      exact if_pos h
    rw [hc]
    exact toUpper_ofNat_fixed c.toNat h.1 h.2
  · have hc : c.toUpper = c := by
      rw [Char.toUpper]
      exact if_neg h
    rw [hc]
    exact hc

lemma pyUpper_idem (s : String) : pyUpper (pyUpper s) = pyUpper s := by
  have hfn : Char.toUpper ∘ Char.toUpper = Char.toUpper := funext toUpper_idem
  simp only [pyUpper, List.map_map, hfn]

/-- C8 (amended): identifier case-normalisation happens only in
`add_or_update_id` — it upper-cases the stripped identifier it stores, and it
preserves the invariant that every record's identifier equals its own
upper-case form.  (The GUI save operations store the identifier as entered;
see the counterexample.) -/
theorem add_or_update_id_uppercase (id : String) (ver : Option String)
    (t : String) (db : List Rec)
    (h : ∀ r ∈ db, pyUpper r.dlsite_id = r.dlsite_id) :
    ∀ r ∈ add_or_update_id id ver t db, pyUpper r.dlsite_id = r.dlsite_id := by
  intro r hr
  simp only [add_or_update_id] at hr
  split at hr
  · obtain ⟨x, hx, rfl⟩ := List.mem_map.mp hr
    by_cases hxid : x.dlsite_id = pyUpper (pyStrip id)
    · rw [if_pos hxid]
      exact h x hx
    · rw [if_neg hxid]
      exact h x hx
  · rcases List.mem_append.mp hr with h2 | h2
    · exact h r h2
    · rcases List.mem_singleton.mp h2 with rfl
      exact pyUpper_idem (pyStrip id)

/-- Witness for C8 applying the amended theorem at concrete inputs. -/
theorem add_or_update_id_uppercase_witness :
    pyUpper (Rec.mk "RJ5" "No" (some "v1") false).dlsite_id =
      (Rec.mk "RJ5" "No" (some "v1") false).dlsite_id :=
  add_or_update_id_uppercase "rj5" (some "v1") "No" [] (by decide)
    ⟨"RJ5", "No", some "v1", false⟩ (by decide)

/-- C8 counterexample: a create through the GUI `save_id` stores the
identifier exactly as typed, so a record whose identifier differs from its
upper-case form exists after the operation. -/
theorem save_id_lowercase_counterexample :
    (save_id "rj1" "" "No" []).1 = [⟨"rj1", "No", some "", false⟩] ∧
    pyUpper "rj1" ≠ "rj1" := by
  decide

lemma normVer_shape (v : String) :
    normVer v = "" ∨ (normVer v).data.head? = some 'v' := by
  by_cases h : v = ""
  · left
    simp [normVer, h]
  · right
    simp [normVer, h]

lemma versionOkB_of_version (r : Rec) (v : String)
    (hv : r.version = some (normVer v)) : versionOkB r = true := by
  rw [versionOkB, hv]
  rcases normVer_shape v with h | h
  · simp [h]
  · simp [h]

lemma updateRow_mem (db : List Rec) (e : Nat) (nid t : String)
    (nv : Option String) :
    ∀ r ∈ updateRow db e nid t nv,
      r ∈ db ∨ (r.dlsite_id = nid ∧ r.version = nv) := by
  induction db generalizing e with
  | nil => intro r hr; simp [updateRow] at hr
  | cons x xs ih =>
    cases e with
    | zero =>
      intro r hr
      rw [updateRow] at hr
      rcases List.mem_cons.mp hr with h | h
      · subst h
        exact Or.inr ⟨rfl, rfl⟩
      · exact Or.inl (List.mem_cons_of_mem _ h)
    | succ e1 =>
      intro r hr
      rw [updateRow] at hr
      rcases List.mem_cons.mp hr with h | h
      · exact Or.inl (by simp [h])
      · rcases ih e1 r h with h2 | h2
        · exact Or.inl (List.mem_cons_of_mem _ h2)
        · exact Or.inr h2

/-- C9 (amended): after the GUI create/update operations every record's
version is either absent/empty or a string beginning with `'v'` (the
remainder is not constrained to lower-case digits; see the counterexample),
provided every version satisfied this beforehand. -/
theorem save_version_shape (id v t : String) (eidx : Nat) (db : List Rec)
    (h : ∀ r ∈ db, versionOkB r = true) :
    (∀ r ∈ (save_id id v t db).1, versionOkB r = true) ∧
    (∀ r ∈ (save_changes eidx id v t db).1, versionOkB r = true) := by
  constructor
  · intro r hr
    simp only [save_id] at hr
    split at hr
    · exact h r hr
    · split at hr
      · exact h r hr
      · rcases List.mem_append.mp hr with h2 | h2
        · exact h r h2
        · rcases List.mem_singleton.mp h2 with rfl
          exact versionOkB_of_version _ v rfl
  · intro r hr
    simp only [save_changes] at hr
    split at hr
    · exact h r hr
    · split at hr
      · exact h r hr
      · rcases updateRow_mem _ _ _ _ _ r hr with h2 | h2
        · exact h r h2
        · exact versionOkB_of_version r (pyStrip v) h2.2

/-- Witness for C9 applying the amended theorem at concrete inputs. -/
theorem save_version_shape_witness :
    versionOkB ⟨"RJ1", "No", some "v1.2", false⟩ = true :=
  (save_version_shape "RJ1" "1.2" "No" 0 [] (by decide)).1
    ⟨"RJ1", "No", some "v1.2", false⟩ (by decide)

/-- C9 counterexample: `save_id` only guarantees the `v` prefix — a version
entered as `"X"` is stored as `"vX"`, which is not a lower-case numeric
token prefixed with `v`. -/
theorem save_id_version_not_canonical :
    (save_id "RJ1" "X" "No" []).1 = [⟨"RJ1", "No", some "vX", false⟩] ∧
    isCanonV "vX" = false := by
  decide

lemma pairUniqueB_append (db : List Rec) (n : Rec)
    (h : pairUniqueB db = true) (hn : ∀ r ∈ db, pairKey r ≠ pairKey n) :
    pairUniqueB (db ++ [n]) = true := by
  induction db with
  | nil => simp [pairUniqueB]
  | cons x xs ih =>
    rw [pairUniqueB, Bool.and_eq_true] at h
    rw [List.cons_append, pairUniqueB, Bool.and_eq_true]
    refine ⟨?_, ih h.2 (fun r hr => hn r (List.mem_cons_of_mem _ hr))⟩
    rw [List.all_append]
    simp only [Bool.and_eq_true]
    constructor
    · exact h.1
    · simp only [List.all_cons, List.all_nil, Bool.and_true, decide_eq_true_eq]
      exact fun he => hn x (List.mem_cons_self x xs) he.symm

lemma pairUniqueB_updateRow (db : List Rec) (e : Nat) (nid t : String)
    (nv : Option String) (h : pairUniqueB db = true)
    (hd : hasDupExcept db e nid nv = false) :
    pairUniqueB (updateRow db e nid t nv) = true := by
  induction db generalizing e with
  | nil => simp [updateRow, pairUniqueB]
  | cons x xs ih =>
    rw [pairUniqueB, Bool.and_eq_true] at h
    cases e with
    | zero =>
      rw [updateRow, pairUniqueB, Bool.and_eq_true]
      rw [hasDupExcept] at hd
      have hall : ∀ r ∈ xs, ¬(r.dlsite_id = nid ∧ r.version = nv) := by
        intro r hr
        have := List.any_eq_false.mp hd r hr
        simpa using this
      refine ⟨?_, h.2⟩
      rw [List.all_eq_true]
      intro r hr
      simp only [decide_eq_true_eq]
      intro he
      have h1 : r.dlsite_id = nid := congrArg Prod.fst he
      have h2 : r.version = nv := congrArg Prod.snd he
      exact hall r hr ⟨h1, h2⟩
    | succ e1 =>
      rw [updateRow, pairUniqueB, Bool.and_eq_true]
      rw [hasDupExcept, Bool.or_eq_false_iff] at hd
      refine ⟨?_, ih e1 h.2 hd.2⟩
      rw [List.all_eq_true]
      intro r hr
      simp only [decide_eq_true_eq]
      rcases updateRow_mem xs e1 nid t nv r hr with h2 | h2
      · have := List.all_eq_true.mp h.1 r h2
        simpa using this
      · intro he
        have hx : ¬(x.dlsite_id = nid ∧ x.version = nv) := by
          have := hd.1
          simpa using this
        have h1 : x.dlsite_id = nid := (congrArg Prod.fst he).symm.trans h2.1
        have h2v : x.version = nv := (congrArg Prod.snd he).symm.trans h2.2
        exact hx ⟨h1, h2v⟩

/-- C1 (amended): the GUI save operations validate uniqueness — a save whose
normalised (identifier, version) pair already belongs to another row is
rejected with a user-facing error and leaves the store unchanged, and both
operations preserve the invariant that no two rows share a raw
(identifier, version) pair.  The unused helper `add_or_update_id` performs no
such validation (see the counterexample). -/
theorem save_uniqueness (id v t : String) (eidx : Nat) (db : List Rec) :
    ((save_id id v t db).2.isSome = true → (save_id id v t db).1 = db) ∧
    (id ≠ "" →
      db.any (fun r => r.dlsite_id = id ∧ r.version = some (normVer v)) = true →
      (save_id id v t db).2.isSome = true) ∧
    (pairUniqueB db = true → pairUniqueB (save_id id v t db).1 = true) ∧
    ((save_changes eidx id v t db).2.isSome = true →
      (save_changes eidx id v t db).1 = db) ∧
    (pyStrip id ≠ "" →
      hasDupExcept db eidx (pyStrip id) (some (normVer (pyStrip v))) = true →
      (save_changes eidx id v t db).2.isSome = true) ∧
    (pairUniqueB db = true → pairUniqueB (save_changes eidx id v t db).1 = true) := by
  have hA : (save_id id v t db).2.isSome = true → (save_id id v t db).1 = db := by
    intro hs
    simp only [save_id] at hs ⊢
    by_cases h1 : id = ""
    · rw [if_pos h1]
    · rw [if_neg h1] at hs ⊢
      by_cases h2 :
        db.any (fun r => r.dlsite_id = id ∧ r.version = some (normVer v)) = true
      · rw [if_pos h2]
      · rw [if_neg h2] at hs
        simp at hs
  have hB : id ≠ "" →
      db.any (fun r => r.dlsite_id = id ∧ r.version = some (normVer v)) = true →
      (save_id id v t db).2.isSome = true := by
    intro h1 h2
    simp only [save_id]
    rw [if_neg h1, if_pos h2]
    rfl
  have hC : pairUniqueB db = true → pairUniqueB (save_id id v t db).1 = true := by
    intro hu
    simp only [save_id]
    by_cases h1 : id = ""
    · rw [if_pos h1]
      exact hu
    · rw [if_neg h1]
      by_cases h2 :
        db.any (fun r => r.dlsite_id = id ∧ r.version = some (normVer v)) = true
      · rw [if_pos h2]
        exact hu
      · rw [if_neg h2]
        have h2f :
            db.any (fun r => r.dlsite_id = id ∧ r.version = some (normVer v)) = false :=
          Bool.eq_false_iff.mpr h2
        have hn : ∀ r ∈ db, pairKey r ≠ pairKey ⟨id, t, some (normVer v), false⟩ := by
          intro r hr he
          have hne := List.any_eq_false.mp h2f r hr
          have h1c : r.dlsite_id = id := congrArg Prod.fst he
          have h2c : r.version = some (normVer v) := congrArg Prod.snd he
          exact hne (by simp [h1c, h2c])
        exact pairUniqueB_append db ⟨id, t, some (normVer v), false⟩ hu hn
  have hD : (save_changes eidx id v t db).2.isSome = true →
      (save_changes eidx id v t db).1 = db := by
    intro hs
    simp only [save_changes] at hs ⊢
    by_cases h1 : pyStrip id = ""
    · rw [if_pos h1]
    · rw [if_neg h1] at hs ⊢
      by_cases h2 :
        hasDupExcept db eidx (pyStrip id) (some (normVer (pyStrip v))) = true
      · rw [if_pos h2]
      · rw [if_neg h2] at hs
        simp at hs
  have hE : pyStrip id ≠ "" →
      hasDupExcept db eidx (pyStrip id) (some (normVer (pyStrip v))) = true →
      (save_changes eidx id v t db).2.isSome = true := by
    intro h1 h2
    simp only [save_changes]
    rw [if_neg h1, if_pos h2]
    rfl
  have hF : pairUniqueB db = true →
      pairUniqueB (save_changes eidx id v t db).1 = true := by
    intro hu
    simp only [save_changes]
    by_cases h1 : pyStrip id = ""
    · rw [if_pos h1]
      exact hu
    · rw [if_neg h1]
      by_cases h2 :
        hasDupExcept db eidx (pyStrip id) (some (normVer (pyStrip v))) = true
      · rw [if_pos h2]
        exact hu
      · rw [if_neg h2]
        exact pairUniqueB_updateRow db eidx (pyStrip id) t
          (some (normVer (pyStrip v))) hu (Bool.eq_false_iff.mpr h2)
  exact ⟨hA, hB, hC, hD, hE, hF⟩

/-- Witness for C1 applying the amended theorem at concrete stores. -/
theorem save_uniqueness_witness :
    (save_id "RJ1" "1" "No" [⟨"RJ1", "No", some "v1", false⟩]).2.isSome = true ∧
    (save_id "RJ1" "1" "No" [⟨"RJ1", "No", some "v1", false⟩]).1 =
      [⟨"RJ1", "No", some "v1", false⟩] ∧
    pairUniqueB (save_id "RJ2" "1" "No" [⟨"RJ1", "No", some "v1", false⟩]).1 = true ∧
    pairUniqueB (save_changes 0 "RJ9" "2" "Yes" [⟨"RJ1", "No", some "v1", false⟩]).1 = true :=
  ⟨(save_uniqueness "RJ1" "1" "No" 0 _).2.1 (by decide) (by decide),
   (save_uniqueness "RJ1" "1" "No" 0 _).1
     ((save_uniqueness "RJ1" "1" "No" 0 _).2.1 (by decide) (by decide)),
   (save_uniqueness "RJ2" "1" "No" 0 _).2.2.1 (by decide),
   (save_uniqueness "RJ9" "2" "Yes" 0 _).2.2.2.2.2 (by decide)⟩

/-- C1 counterexample: starting from the empty store, two accepted creates
reach a store with rows (`RJ1`,`v1`) and (`RJ1`,`v2`); the operation
`add_or_update_id "RJ1" "v2"` is then not rejected — it silently rewrites
every `RJ1` row, leaving two records that share the (identifier, version)
pair (`RJ1`,`v2`). -/
theorem add_or_update_id_breaks_uniqueness :
    (save_id "RJ1" "v1" "No" []).2 = none ∧
    (save_id "RJ1" "v2" "No" (save_id "RJ1" "v1" "No" []).1).2 = none ∧
    pairUniqueB (save_id "RJ1" "v2" "No" (save_id "RJ1" "v1" "No" []).1).1 = true ∧
    add_or_update_id "RJ1" (some "v2") "No"
        (save_id "RJ1" "v2" "No" (save_id "RJ1" "v1" "No" []).1).1 =
      [⟨"RJ1", "No", some "v2", false⟩, ⟨"RJ1", "No", some "v2", false⟩] ∧
    pairUniqueB
        (add_or_update_id "RJ1" (some "v2") "No"
          (save_id "RJ1" "v2" "No" (save_id "RJ1" "v1" "No" []).1).1) = false := by
  decide

lemma rowMatches_marked (fid : String) (fv : Option String) (r : Rec) (b : Bool) :
    rowMatches fid fv { r with marked := b } = rowMatches fid fv r :=
  rfl

lemma matchesFile_marked (f : String) (r : Rec) (b : Bool) :
    matchesFile f { r with marked := b } = matchesFile f r := by
  rcases hef : extractS f with ⟨fid, fv⟩
  cases fid with
  | none => simp [matchesFile, hef]
  | some i =>
    simp only [matchesFile, hef]
    rfl

lemma map_mark_id (p : Rec → Bool) (l : List Rec)
    (h : ∀ x ∈ l, p x = false) :
    l.map (fun r => if p r then { r with marked := true } else r) = l := by
  induction l with
  | nil => rfl
  | cons x xs ih =>
    rw [List.map_cons, if_neg (by simp [h x (List.mem_cons_self x xs)]),
      ih (fun y hy => h y (List.mem_cons_of_mem _ hy))]

lemma markFirst_eq_map (p : Rec → Bool) (db : List Rec) (h : AtMostOne p db) :
    markFirst p db = db.map (fun r => if p r then { r with marked := true } else r) := by
  induction db with
  | nil => rfl
  | cons r rs ih =>
    by_cases hp : p r = true
    · rw [markFirst, if_pos hp, List.map_cons, if_pos hp,
        map_mark_id p rs (h.1 hp)]
    · rw [markFirst, if_neg hp, List.map_cons, if_neg hp, ih h.2]

lemma versionWhere_class (fv : Option String) (a b : Option String)
    (ha : versionWhere fv a = true) (hb : versionWhere fv b = true) :
    classV a = classV b := by
  cases fv with
  | none =>
    rw [versionWhere, decide_eq_true_eq] at ha hb
    rcases ha with ha | ha <;> rcases hb with hb | hb <;> simp [ha, hb, classV]
  | some vq =>
    by_cases hq : vq = ""
    · rw [versionWhere, if_pos hq, decide_eq_true_eq] at ha hb
      rcases ha with ha | ha <;> rcases hb with hb | hb <;> simp [ha, hb, classV]
    · rw [versionWhere, if_neg hq, decide_eq_true_eq] at ha hb
      rw [ha, hb]

lemma rowMatches_keyOf (fid : String) (fv : Option String) (a b : Rec)
    (ha : rowMatches fid fv a = true) (hb : rowMatches fid fv b = true) :
    keyOf a = keyOf b := by
  rw [rowMatches, Bool.and_eq_true, decide_eq_true_eq] at ha hb
  have hid : a.dlsite_id = b.dlsite_id := ha.1.trans hb.1.symm
  have hver := versionWhere_class fv a.version b.version ha.2 hb.2
  simp [keyOf, hid, hver]

lemma atMostOne_of_keyUnique (fid : String) (fv : Option String)
    (db : List Rec) (h : keyUniqueB db = true) :
    AtMostOne (rowMatches fid fv) db := by
  induction db with
  | nil => trivial
  | cons r rs ih =>
    rw [keyUniqueB, Bool.and_eq_true] at h
    refine ⟨?_, ih h.2⟩
    intro hp x hx
    rw [Bool.eq_false_iff]
    intro hpx
    have hkey := rowMatches_keyOf fid fv x r hpx hp
    have := List.all_eq_true.mp h.1 x hx
    rw [decide_eq_true_eq] at this
    exact this hkey

lemma atMostOne_map_marked (fid : String) (fv : Option String)
    (g : Rec → Bool) (db : List Rec)
    (h : AtMostOne (rowMatches fid fv) db) :
    AtMostOne (rowMatches fid fv) (db.map (fun r => { r with marked := g r })) := by
  induction db with
  | nil => trivial
  | cons r rs ih =>
    refine ⟨?_, ih h.2⟩
    intro hp x hx
    rw [rowMatches_marked] at hp
    obtain ⟨y, hy, rfl⟩ := List.mem_map.mp hx
    rw [rowMatches_marked]
    exact h.1 hp y hy

lemma scanDb_map (files : List String) (db : List Rec)
    (h : keyUniqueB db = true) (P : Rec → Bool) :
    files.foldl processFile (db.map (fun r => { r with marked := P r })) =
      db.map (fun r => { r with marked := P r || files.any (fun f => matchesFile f r) }) := by
  induction files generalizing P with
  | nil => simp
  | cons f fs ih =>
    rw [List.foldl_cons]
    have hstep : processFile (db.map (fun r => { r with marked := P r })) f =
        db.map (fun r => { r with marked := P r || matchesFile f r }) := by
      rcases hef : extractS f with ⟨fid, fv⟩
      cases fid with
      | none =>
        have hm : ∀ r, matchesFile f r = false := fun r => by
          simp [matchesFile, hef]
        simp only [processFile, hef]
        simp [hm]
      | some i =>
        by_cases hi : i = ""
        · have hm : ∀ r, matchesFile f r = false := fun r => by
            simp [matchesFile, hef, hi]
          simp only [processFile, hef]
          rw [if_neg (by simp [hi])]
          simp [hm]
        · have hm : ∀ r, matchesFile f r = rowMatches i fv r := fun r => by
            simp [matchesFile, hef, hi]
          simp only [processFile, hef]
          rw [if_pos hi]
          have hamo := atMostOne_map_marked i fv P db
            (atMostOne_of_keyUnique i fv db h)
          rw [markFirst_eq_map _ _ hamo, List.map_map]
          have hfn :
              ((fun r : Rec => if rowMatches i fv r then { r with marked := true } else r) ∘
                  (fun r : Rec => { r with marked := P r })) =
                (fun r : Rec => { r with marked := P r || matchesFile f r }) := by
            funext r
            simp only [Function.comp, rowMatches_marked, hm]
            by_cases hr : rowMatches i fv r = true
            · rw [if_pos hr, hr, Bool.or_true]
            · rw [if_neg hr, Bool.eq_false_iff.mpr hr, Bool.or_false]
          rw [hfn]
    rw [hstep, ih (fun r => P r || matchesFile f r)]
    have hfn2 :
        (fun r : Rec => { r with
            marked := (P r || matchesFile f r) || fs.any (fun g => matchesFile g r) }) =
          (fun r : Rec => { r with
            marked := P r || (f :: fs).any (fun g => matchesFile g r) }) := by
      funext r
      rw [List.any_cons, Bool.or_assoc]
    rw [hfn2]

/-- C3 (amended): for a store in which no two records share the same
scan-matching key (identifier with absent/empty versions identified) and a
readable folder, the scan leaves each record's identifier, version and
tested fields in place, creates and deletes nothing, and sets a record's
present flag exactly when some listed file parses to that record's
(identifier, version) pair. -/
theorem scan_marks_iff (db : List Rec) (files : List String)
    (h : keyUniqueB db = true) :
    scan true (some files) db =
      db.map (fun r => { r with marked := files.any (fun f => matchesFile f r) }) := by
  have hscan : scan true (some files) db =
      files.foldl processFile (db.map resetRec) := rfl
  have hreset : db.map resetRec =
      db.map (fun r => { r with marked := (fun _ : Rec => false) r }) := rfl
  rw [hscan, hreset, scanDb_map files db h (fun _ => false)]
  have hfn :
      (fun r : Rec => { r with
          marked := (fun _ : Rec => false) r || files.any (fun f => matchesFile f r) }) =
        (fun r : Rec => { r with
          marked := files.any (fun f => matchesFile f r) }) := by
    funext r
    rw [Bool.false_or]
  rw [hfn]

/-- Witness for C3 applying the amended theorem to a concrete store and
folder listing. -/
theorem scan_marks_iff_witness :
    scan true (some ["RJ1 (v2).zip"])
      [⟨"RJ1", "No", some "v2", false⟩, ⟨"RJ2", "Yes", none, true⟩] =
      [⟨"RJ1", "No", some "v2", true⟩, ⟨"RJ2", "Yes", none, false⟩] := by
  rw [scan_marks_iff
    [⟨"RJ1", "No", some "v2", false⟩, ⟨"RJ2", "Yes", none, true⟩]
    ["RJ1 (v2).zip"] (by decide)]
  decide

/-- C3 counterexample: the claim's "present iff some file parses to the
record's pair" fails on a store holding two records with the same pair — the
per-file query marks only the first fetched row, so the second record stays
absent although a listed file parses to exactly its pair. -/
theorem scan_duplicate_pair_counterexample :
    scan true (some ["RJ1.zip"])
      [⟨"RJ1", "No", none, false⟩, ⟨"RJ1", "No", none, false⟩] =
      [⟨"RJ1", "No", none, true⟩, ⟨"RJ1", "No", none, false⟩] ∧
    extractS "RJ1.zip" = (some "RJ1", none) ∧
    matchesFile "RJ1.zip" ⟨"RJ1", "No", none, false⟩ = true := by
  decide

end DLHelper

